import Mathlib

/-!
Formal model of `cpp-adaptive-benchmark` (`src/benchmark.hpp`).

The C++ header implements an adaptive micro-benchmark engine.  The model below
is a shallow embedding of its core algorithms:

* `Benchmark.measureStep` / `Benchmark.measurePhase` — the common body of the
  four timed loops of `Benchmark::run` (rough, two clarifying passes, main).
  Each loop iteration measures one sample: a clock delta `diff_ns`; samples
  with `diff_ns <= 1` are skipped, surviving samples are accumulated into a
  running sum and the per-call minimum/maximum in picoseconds.  In the source
  the rough and ungrouped main loops update min/max with `diff_ns * 1000`,
  the batched loops with `(diff_ns * 1000) / n`; the former is the `n = 1`
  instance of the latter (division by one is exact), so a single parametrised
  step is used.
* `Benchmark.runTestee` — the per-testee part of `Benchmark::run`
  (lines 171–329), with the timing environment supplied as inputs: one stream
  of measured clock deltas (in ns) per loop, and the signed remaining-budget
  value read at line 277.  The callable itself, the RNG and the
  `doNotOptimize` accumulator do not influence the recorded statistics and are
  abstracted away.  All integer arithmetic in the source is `int64_t`
  (with one `uint32_t` conversion for the batch size); every division that the
  source can execute has a non-negative dividend and divisor, where C++
  truncating division agrees with Lean's `Int` division, and the 64-bit values
  stay far from overflow for the documented input domain, so plain `Int` is
  used.  C++ division by zero is undefined behaviour; the model returns `none`
  exactly when a division by zero would be executed.
* `Benchmark.makeDurationString` / `Benchmark.toString` — the duration
  formatter (lines 473–567, 626–632), for the documented non-negative domain
  (`std::div` on non-negative operands agrees with `Int` division).
* `Benchmark.getSteadyTick_ns` — the split counter-to-nanosecond conversion
  (lines 453–464).
* `Benchmark.add` / `Benchmark.updateColumn` / `Benchmark.processSlot` — the
  registry update (lines 123–145) and the per-column statistics update and
  skip-on-missing-callable behaviour of the run loop (163–168, 342–351).
  Callables are modelled as opaque values of an arbitrary type; a missing
  callable (default-constructed `std::function`) is `none`.
-/

namespace Benchmark

/-- Largest `int64_t` value; the initial value of `testee.minimum_ps`. -/
def INT64_MAX : Int := 9223372036854775807

/-- Per-testee recorded statistics (`TesteeMeta` without the callable). -/
structure TesteeStats where
  minimum_ps : Int
  average_ps : Int
  maximum_ps : Int
deriving DecidableEq

/-- State threaded through one timed loop: the running sum of surviving deltas
(`sum_ns`) and the per-call extrema in picoseconds. -/
structure MState where
  sum_ns : Int
  minimum_ps : Int
  maximum_ps : Int
deriving DecidableEq

/-- One iteration of a timed loop of `Benchmark::run`: a sample whose measured
delta `diff_ns` is at most one clock tick is skipped (`continue`), otherwise
the delta joins the sum and the per-call figure `(diff_ns * 1000) / n` updates
the minimum and maximum.  The ungrouped loops of the source are the `n = 1`
instance. -/
def measureStep (n : Int) (st : MState) (diff_ns : Int) : MState :=
  if diff_ns ≤ 1 then st
  else
    { sum_ns := st.sum_ns + diff_ns
      minimum_ps := min st.minimum_ps ((diff_ns * 1000) / n)
      maximum_ps := max st.maximum_ps ((diff_ns * 1000) / n) }

/-- One whole timed loop over a list of measured deltas. -/
def measurePhase (n : Int) (deltas : List Int) (st : MState) : MState :=
  deltas.foldl (measureStep n) st

/-- `minDesiredTime_ps` (line 199): 5 ms in picoseconds. -/
def minDesiredTime_ps : Int := 5000000000

/-- `minClarifyingTime_ps` (line 200): 500 ms in picoseconds. -/
def minClarifyingTime_ps : Int := 500000000000

/-- `constexpr uint32_t reps = minClarifyingTime_ps / minDesiredTime_ps`
(line 204): the number of samples of each clarifying pass (= 100). -/
def clarifyingReps : Nat := (minClarifyingTime_ps / minDesiredTime_ps).toNat

/-- State after the rough-measurement loop (lines 171–190), starting from
`minimum_ps = INT64_MAX`, `maximum_ps = 0`, `sum_ns = 0`.  `R` is
`minimumRepetitions` and `rough i` the measured delta of iteration `i`. -/
def roughState (R : Nat) (rough : Nat → Int) : MState :=
  measurePhase 1 ((List.range R).map rough) ⟨0, INT64_MAX, 0⟩

/-- The rough average of line 191: `(sum_ns / minimumRepetitions) * 1000`. -/
def roughAverage (R : Nat) (rough : Nat → Int) : Int :=
  (roughState R rough).sum_ns / (R : Int) * 1000

/-- The batch size computation `uint32_t(minDesiredTime_ps / average_ps)`
(lines 203, 236, 281); the conversion to `uint32_t` reduces the (non-negative)
quotient modulo `2^32`.  The caller must ensure `average_ps ≠ 0`. -/
def batchN (average_ps : Int) : Int :=
  (minDesiredTime_ps / average_ps) % 4294967296

/-- Surviving samples of a delta list: the source's loops skip every sample
with `diff_ns <= 1` (clock-granularity noise) and process the rest. -/
def survivors (deltas : List Int) : List Int :=
  deltas.filter fun d => decide (¬ d ≤ 1)

/-- One clarifying pass (lines 205–230 and 237–262): a fresh measurement loop
with batch size `n` over `clarifyingReps` samples, followed by the average
recomputation `average_ps = (sum_ns * 1000) / reps; average_ps /= n`.
Returns the measurement state and the refined average. -/
def clarifyPass (n : Int) (deltas : List Int) : MState × Int :=
  let st := measurePhase n deltas ⟨0, INT64_MAX, 0⟩
  (st, st.sum_ns * 1000 / (clarifyingReps : Int) / n)

/-- The main-measurement part of `Benchmark::run` (lines 276–329).  `st` and
`avgIn` are the statistics and average left by the preceding phase, `nIn` the
value the variable `n` holds at line 276 (0 when the batching branch was not
taken, the second clarifying batch size otherwise), `main i` the delta of the
`i`-th main-phase sample.  Returns the final statistics together with the
number of executed main-phase timed samples (the source's `repetitions`), or
`none` if a division by zero (undefined behaviour) would be executed at
line 280/281. -/
def mainPhase (R : Nat) (remainingTime_ns : Int) (main : Nat → Int)
    (st : MState) (avgIn nIn : Int) : Option (TesteeStats × Int) :=
  if 0 < remainingTime_ns then
    if avgIn = 0 then none
    else
      let reps0 : Int := remainingTime_ns * 1000 / avgIn
      let n : Int := batchN avgIn
      if n = 0 then
        let stF := measurePhase 1 ((List.range reps0.toNat).map main) st
        some (⟨stF.minimum_ps, stF.sum_ns / ((R : Int) + reps0) * 1000,
          stF.maximum_ps⟩, reps0)
      else
        let reps : Int := reps0 / n
        if 0 < reps then
          let stF := measurePhase n ((List.range reps.toNat).map main)
            ⟨0, st.minimum_ps, st.maximum_ps⟩
          some (⟨stF.minimum_ps, stF.sum_ns * 1000 / reps / n,
            stF.maximum_ps⟩, reps)
        else
          some (⟨st.minimum_ps, avgIn, st.maximum_ps⟩, 0)
  else
    if nIn = 0 then
      some (⟨st.minimum_ps, st.sum_ns / ((R : Int) + 0) * 1000,
        st.maximum_ps⟩, 0)
    else
      some (⟨st.minimum_ps, avgIn, st.maximum_ps⟩, 0)

/-- The measurement of one testee in `Benchmark::run` (lines 171–329): the
rough loop, then — when the rough average is below `minDesiredTime_ps` — the
two clarifying passes with recomputed batch sizes, then the main phase.
`rough`, `clar1`, `clar2`, `main` are the streams of measured clock deltas of
the four loops and `remainingTime_ns` the value computed at line 277.
Returns `none` when the source would divide by zero: at line 203 / 236 / 280
if the average in hand is zero, or at line 225 / 230 / 257 / 262 if a batch
size is zero. -/
def runTestee (R : Nat) (rough clar1 clar2 main : Nat → Int)
    (remainingTime_ns : Int) : Option TesteeStats :=
  let st0 := roughState R rough
  let avg0 := roughAverage R rough
  if avg0 < minDesiredTime_ps then
    if avg0 = 0 then none
    else
      let n1 := batchN avg0
      if n1 = 0 then none
      else
        let p1 := clarifyPass n1 ((List.range clarifyingReps).map clar1)
        if p1.2 = 0 then none
        else
          let n2 := batchN p1.2
          if n2 = 0 then none
          else
            let p2 := clarifyPass n2 ((List.range clarifyingReps).map clar2)
            (mainPhase R remainingTime_ns main p2.1 p2.2 n2).map Prod.fst
  else
    (mainPhase R remainingTime_ns main st0 avg0 0).map Prod.fst

/-- `Benchmark::toString(uint64_t value, uint8_t width)` (lines 626–632):
decimal rendering left-padded with zeros up to `width`.  The `uint64_t`
parameter is modelled as a non-negative `Int` (every call site passes a
non-negative remainder). -/
def toString (value : Int) (width : Nat) : String :=
  let result := Nat.repr value.toNat
  if result.length < width then
    String.mk (List.replicate (width - result.length) '0') ++ result
  else result

/-- `Benchmark::makeDurationString` (lines 473–567) for the documented domain
of non-negative picosecond durations.  `duration` in the source is the input
truncated to nanoseconds; each tier renders a major unit and a zero-padded
minor remainder. -/
def makeDurationString (duration_ps : Int) : String :=
  let ns : Int := duration_ps / 1000
  if duration_ps ≤ 999 then
    Int.repr duration_ps ++ "ps"
  else if ns ≤ 999 then
    Int.repr (duration_ps / 1000) ++ "ns " ++ toString (duration_ps % 1000) 3 ++ "ps"
  else if ns ≤ 999000 then
    Int.repr (ns / 1000) ++ "us " ++ toString (ns % 1000) 3 ++ "ns"
  else if ns ≤ 999000000 then
    let us := ns / 1000
    Int.repr (us / 1000) ++ "ms " ++ toString (us % 1000) 3 ++ "us"
  else if ns ≤ 59000000000 then
    let ms := ns / 1000000
    Int.repr (ms / 1000) ++ "s " ++ toString (ms % 1000) 3 ++ "ms"
  else if ns ≤ 3540000000000 then
    let s := ns / 1000000000
    Int.repr (s / 60) ++ "m " ++ toString (s % 60) 2 ++ "s"
  else if ns ≤ 82800000000000 then
    let m := ns / 60000000000
    Int.repr (m / 60) ++ "h " ++ toString (m % 60) 2 ++ "m"
  else
    let h := ns / 3600000000000
    Int.repr (h / 24) ++ "d " ++ toString (h % 24) 2 ++ "h"

/-- `Benchmark::getSteadyTick_ns` conversion of a raw counter value to
nanoseconds (lines 462–464): quotient seconds scaled to ns plus the remainder
converted separately. -/
def getSteadyTick_ns (tsc Hz : Nat) : Nat :=
  tsc / Hz * 1000000000 + tsc % Hz * 1000000000 / Hz

/-- The relative-percentage computation of the report (line 410) in tenths of
a percent: `(testeeTime_ps * 1000) / std::max(time_ps, 1)`.  The report prints
`0.1` times this value. -/
def percTenths (testeeTime_ps time_ps : Int) : Int :=
  testeeTime_ps * 1000 / max time_ps 1

/-- Per-column running metadata (`ColumnMeta`, lines 76–83): smallest seen
minimum/maximum/average and the longest formatted width of each metric.
Initial values: times `INT64_MAX`, widths `sizeof("Time") - 1 = 4`. -/
structure ColumnMeta where
  minTime_ps : Int
  maxTime_ps : Int
  avgTime_ps : Int
  minTimeStrLength : Nat
  maxTimeStrLength : Nat
  avgTimeStrLength : Nat
deriving DecidableEq

/-- The column update of `Benchmark::run` (lines 342–351), executed after a
testee with a bound callable has been measured. -/
def updateColumn (c : ColumnMeta) (t : TesteeStats) : ColumnMeta :=
  { minTime_ps := min t.minimum_ps c.minTime_ps
    minTimeStrLength := max c.minTimeStrLength (makeDurationString t.minimum_ps).length
    maxTime_ps := min t.maximum_ps c.maxTime_ps
    maxTimeStrLength := max c.maxTimeStrLength (makeDurationString t.maximum_ps).length
    avgTime_ps := min t.average_ps c.avgTime_ps
    avgTimeStrLength := max c.avgTimeStrLength (makeDurationString t.average_ps).length }

/-- Timing environment for one testee slot (the measured deltas of the four
loops and the remaining-budget reading). -/
structure TesteeTrace where
  rough : Nat → Int
  clar1 : Nat → Int
  clar2 : Nat → Int
  main : Nat → Int
  remainingTime_ns : Int

/-- Processing of one testee slot of the run loop (lines 162–168, 342–351):
a slot with no callable bound (`!testee.function`, modelled as `none`) is
skipped by `continue` before any measurement or column update; otherwise the
testee is measured and the column metadata updated. -/
def processSlot (R : Nat) (c : ColumnMeta) (slot : Option TesteeTrace) : ColumnMeta :=
  match slot with
  | none => c
  | some tr =>
    match runTestee R tr.rough tr.clar1 tr.clar2 tr.main tr.remainingTime_ns with
    | none => c
    | some t => updateColumn c t

/-- Extension or truncation of a slot vector to `k` entries
(`std::vector::resize`, line 142): keep the first `k` existing slots, fill up
with empty (`none`) callables. -/
def resizeSlots {α : Type} (v : List (Option α)) (k : Nat) : List (Option α) :=
  v.take k ++ List.replicate (k - v.length) none

/-- The registry scan-and-update of `Benchmark::add` (lines 130–145): find the
first entry with the given name and replace its slot `column` (resizing the
slot vector to `cols` first); append a fresh entry at the back if the name is
new. -/
def addLoop {α : Type} (testees : List (String × List (Option α))) (cols : Nat)
    (name : String) (column : Nat) (f : α) : List (String × List (Option α)) :=
  match testees with
  | [] => [(name, (resizeSlots [] cols).set column (some f))]
  | (n, v) :: rest =>
    if n = name then (n, (resizeSlots v cols).set column (some f)) :: rest
    else (n, v) :: addLoop rest cols name column f

/-- Registration state of the engine: the ordered testee registry, the column
count set by `setColumnsNumber`, and the longest registered name
(`m_maxNameLength`, initially `sizeof("Name") - 1 = 4`). -/
structure BenchState (α : Type) where
  m_testees : List (String × List (Option α))
  m_columns : Nat
  m_maxNameLength : Nat

/-- `Benchmark::add` (lines 123–145) with the callable abstracted to an opaque
value. -/
def add {α : Type} (b : BenchState α) (name : String) (column : Nat) (f : α) :
    BenchState α :=
  { b with
    m_maxNameLength := max name.length b.m_maxNameLength
    m_testees := addLoop b.m_testees b.m_columns name column f }

/-! Basic lemmas about the measurement loops. -/

theorem measurePhase_nil (n : Int) (st : MState) : measurePhase n [] st = st := rfl

theorem measurePhase_cons (n d : Int) (l : List Int) (st : MState) :
    measurePhase n (d :: l) st = measurePhase n l (measureStep n st d) := rfl

theorem measureStep_skip (n : Int) (st : MState) (d : Int) (h : d ≤ 1) :
    measureStep n st d = st := by
  simp [measureStep, h]

theorem measureStep_keep (n : Int) (st : MState) (d : Int) (h : ¬ d ≤ 1) :
    measureStep n st d =
      ⟨st.sum_ns + d, min st.minimum_ps (d * 1000 / n),
        max st.maximum_ps (d * 1000 / n)⟩ := by
  simp [measureStep, h]

theorem survivors_nil : survivors [] = [] := rfl

theorem survivors_cons (d : Int) (l : List Int) :
    survivors (d :: l) = if d ≤ 1 then survivors l else d :: survivors l := by
  simp only [survivors, List.filter_cons]
  by_cases h : d ≤ 1 <;> simp [h]

/-- A measurement loop's final state: the surviving deltas are summed and the
per-call figures folded into the running minimum and maximum; skipped samples
contribute nothing. -/
theorem measurePhase_spec (n : Int) (deltas : List Int) (st : MState) :
    measurePhase n deltas st =
      ⟨st.sum_ns + (survivors deltas).sum,
        (survivors deltas).foldl (fun m d => min m (d * 1000 / n)) st.minimum_ps,
        (survivors deltas).foldl (fun m d => max m (d * 1000 / n)) st.maximum_ps⟩ := by
  induction deltas generalizing st with
  | nil => simp [measurePhase_nil, survivors_nil]
  | cons d rest ih =>
    rw [measurePhase_cons, ih, survivors_cons]
    by_cases h : d ≤ 1
    · rw [if_pos h, measureStep_skip n st d h]
    · rw [if_neg h, measureStep_keep n st d h]
      simp only [List.sum_cons, List.foldl_cons, MState.mk.injEq]
      refine ⟨by ring, by simp, by simp⟩

theorem range_map_const {α : Type} (k : Nat) (c : α) :
    (List.range k).map (fun _ => c) = List.replicate k c := by
  refine List.eq_replicate_iff.mpr ⟨by simp, ?_⟩
  intro b hb
  obtain ⟨a, -, rfl⟩ := List.mem_map.mp hb
  rfl

/-- A non-empty measurement loop over a constant surviving delta. -/
theorem measurePhase_replicate (n d : Int) (hd : ¬ d ≤ 1) (k : Nat) (hk : k ≠ 0)
    (st : MState) :
    measurePhase n (List.replicate k d) st =
      ⟨st.sum_ns + (k : Int) * d, min st.minimum_ps (d * 1000 / n),
        max st.maximum_ps (d * 1000 / n)⟩ := by
  induction k generalizing st with
  | zero => exact absurd rfl hk
  | succ k ih =>
    rw [List.replicate_succ, measurePhase_cons, measureStep_keep n st d hd]
    by_cases hk0 : k = 0
    · subst hk0
      rw [List.replicate_zero, measurePhase_nil]
      simp only [MState.mk.injEq]
      refine ⟨by push_cast; ring, by simp, by simp⟩
    · rw [ih hk0]
      simp only [MState.mk.injEq]
      refine ⟨by push_cast; ring, by rw [min_assoc, min_self],
        by rw [max_assoc, max_self]⟩

theorem survivors_sum_nonneg (deltas : List Int) : 0 ≤ (survivors deltas).sum := by
  apply List.sum_nonneg
  intro d hd
  have h2 : ¬ d ≤ 1 := of_decide_eq_true (List.mem_filter.mp hd).2
  omega

theorem roughState_sum_nonneg (R : Nat) (rough : Nat → Int) :
    0 ≤ (roughState R rough).sum_ns := by
  rw [roughState, measurePhase_spec]
  simpa using survivors_sum_nonneg ((List.range R).map rough)

/-- The `uint32_t` conversion in the batch-size computation does not truncate
when the average is at least 1000 ps (one representable ns), because the
quotient is then at most 5·10^6. -/
theorem batchN_eq (avg : Int) (h : 1000 ≤ avg) :
    batchN avg = minDesiredTime_ps / avg := by
  have havg : (0 : Int) < avg := by omega
  have h0 : 0 ≤ minDesiredTime_ps / avg :=
    Int.ediv_nonneg (by norm_num [minDesiredTime_ps]) (le_of_lt havg)
  have h2 : minDesiredTime_ps / avg * avg ≤ minDesiredTime_ps :=
    Int.ediv_mul_le _ (ne_of_gt havg)
  have h3 : minDesiredTime_ps / avg * 1000 ≤ minDesiredTime_ps / avg * avg :=
    mul_le_mul_of_nonneg_left h h0
  have h6 : minDesiredTime_ps / avg * 1000 ≤ 5000000000 := le_trans h3 h2
  have h4 : minDesiredTime_ps / avg < 4294967296 := by omega
  unfold batchN
  exact Int.emod_eq_of_lt h0 h4

theorem batchN_pos (avg : Int) (h : 1000 ≤ avg) (h2 : avg ≤ minDesiredTime_ps) :
    0 < batchN avg := by
  rw [batchN_eq avg h]
  have h3 : (1 : Int) ≤ minDesiredTime_ps / avg :=
    (Int.le_ediv_iff_mul_le (by omega)).mpr (by rw [one_mul]; exact h2)
  omega

/-- With a non-positive remaining budget no main-phase sample is taken and the
statistics of the preceding phase are returned unchanged (in the `nIn = 0`
path the average is recomputed, to the identical value, from the same sum). -/
theorem mainPhase_nonpos (R : Nat) (remaining : Int) (main : Nat → Int) (st : MState)
    (avgIn nIn : Int) (hr : remaining ≤ 0)
    (h0 : nIn = 0 → avgIn = st.sum_ns / (R : Int) * 1000) :
    mainPhase R remaining main st avgIn nIn =
      some (⟨st.minimum_ps, avgIn, st.maximum_ps⟩, 0) := by
  simp only [mainPhase, if_neg (not_lt.mpr hr)]
  by_cases hn : nIn = 0
  · rw [if_pos hn, h0 hn, add_zero]
  · rw [if_neg hn]

/-! Lemmas about the decimal renderings used by the formatter. -/

theorem toString_length (value : Int) (width : Nat) :
    (Benchmark.toString value width).length =
      max width (Nat.repr value.toNat).length := by
  simp only [Benchmark.toString]
  by_cases h : (Nat.repr value.toNat).length < width
  · rw [if_pos h, String.length_append]
    have hmk : (String.mk (List.replicate (width - (Nat.repr value.toNat).length) '0')).length
        = width - (Nat.repr value.toNat).length := List.length_replicate _ _
    omega
  · rw [if_neg h]
    omega

set_option maxRecDepth 4000 in
theorem natRepr_len : ∀ n : Nat, n < 1000 →
    1 ≤ (Nat.repr n).length ∧ (Nat.repr n).length ≤ 3 ∧
      (n < 100 → (Nat.repr n).length ≤ 2) := by decide

theorem intRepr_nonneg (d : Int) (h : 0 ≤ d) : Int.repr d = Nat.repr d.toNat := by
  obtain ⟨n, rfl⟩ := Int.eq_ofNat_of_zero_le h
  rfl

/-! Behaviour of the engine on a constant-cost callable: every ungrouped
sample measures `T` ns and every batch of `n` calls measures `n * T` ns. -/

theorem clarifyPass_const (n T : Int) (hn : 0 < n) (hT : 2 ≤ T)
    (hT2 : T * 1000 ≤ INT64_MAX) :
    clarifyPass n (List.replicate clarifyingReps (n * T)) =
      (⟨(clarifyingReps : Int) * (n * T), T * 1000, T * 1000⟩, T * 1000) := by
  have hgt : ¬ (n * T ≤ 1) := by
    have h1 : (1 : Int) * T ≤ n * T := mul_le_mul_of_nonneg_right (by omega) (by omega)
    rw [one_mul] at h1
    intro hc
    linarith
  have hdiv : n * T * 1000 / n = T * 1000 := by
    rw [mul_assoc, Int.mul_ediv_cancel_left _ (ne_of_gt hn)]
  have hck : clarifyingReps ≠ 0 := by decide
  have hc : (clarifyingReps : Int) ≠ 0 := by decide
  simp only [clarifyPass]
  rw [measurePhase_replicate n (n * T) hgt clarifyingReps hck, hdiv]
  dsimp only
  rw [zero_add, min_eq_right hT2, max_eq_right (by linarith : (0 : Int) ≤ T * 1000)]
  have h2 : (clarifyingReps : Int) * (n * T) * 1000
      = (clarifyingReps : Int) * (n * T * 1000) := by ring
  rw [h2, Int.mul_ediv_cancel_left _ hc, hdiv]

theorem mainPhase_const_batch (R : Nat) (remaining : Int) (hr : 0 < remaining)
    (T : Int) (hT : 2 ≤ T) (s0 nIn : Int)
    (hn : 0 < batchN (T * 1000)) :
    mainPhase R remaining (fun _ => batchN (T * 1000) * T)
        ⟨s0, T * 1000, T * 1000⟩ (T * 1000) nIn =
      some (⟨T * 1000, T * 1000, T * 1000⟩,
        remaining * 1000 / (T * 1000) / batchN (T * 1000)) := by
  have hnT : ¬ (batchN (T * 1000) * T ≤ 1) := by
    have h1 : (1 : Int) * T ≤ batchN (T * 1000) * T :=
      mul_le_mul_of_nonneg_right (by omega) (by omega)
    rw [one_mul] at h1
    intro hc
    linarith
  have hdivn : batchN (T * 1000) * T * 1000 / batchN (T * 1000) = T * 1000 := by
    rw [mul_assoc, Int.mul_ediv_cancel_left _ (by omega)]
  have hnn0 : 0 ≤ remaining * 1000 / (T * 1000) :=
    Int.ediv_nonneg (by omega) (by omega)
  have hreps_nn : 0 ≤ remaining * 1000 / (T * 1000) / batchN (T * 1000) :=
    Int.ediv_nonneg hnn0 (le_of_lt hn)
  simp only [mainPhase, if_pos hr, if_neg (show ¬ (T * 1000 = 0) by omega)]
  rw [if_neg (show ¬ batchN (T * 1000) = 0 by omega)]
  by_cases hq : 0 < remaining * 1000 / (T * 1000) / batchN (T * 1000)
  · rw [if_pos hq]
    rw [range_map_const,
      measurePhase_replicate _ _ hnT _
        (show (remaining * 1000 / (T * 1000) / batchN (T * 1000)).toNat ≠ 0 by omega),
      hdivn, min_self, max_self, zero_add]
    have hcast : ((remaining * 1000 / (T * 1000) / batchN (T * 1000)).toNat : Int)
        = remaining * 1000 / (T * 1000) / batchN (T * 1000) :=
      Int.toNat_of_nonneg hreps_nn
    rw [hcast]
    have hfac : remaining * 1000 / (T * 1000) / batchN (T * 1000) * (batchN (T * 1000) * T) * 1000
        = remaining * 1000 / (T * 1000) / batchN (T * 1000) * (batchN (T * 1000) * T * 1000) := by
      ring
    rw [hfac, Int.mul_ediv_cancel_left _ (by omega :
      remaining * 1000 / (T * 1000) / batchN (T * 1000) ≠ 0), hdivn]
  · rw [if_neg hq]
    have h0 : remaining * 1000 / (T * 1000) / batchN (T * 1000) = 0 := by omega
    rw [h0]

theorem mainPhase_const_ungrouped (R : Nat) (hR : R ≠ 0) (remaining : Int)
    (hr : 0 < remaining) (T : Int) (hT : 2 ≤ T)
    (hn0 : batchN (T * 1000) = 0) :
    mainPhase R remaining (fun _ => T) ⟨(R : Int) * T, T * 1000, T * 1000⟩
        (T * 1000) 0 =
      some (⟨T * 1000, T * 1000, T * 1000⟩, remaining * 1000 / (T * 1000)) := by
  have hRz : (R : Int) ≠ 0 := by exact_mod_cast hR
  have hRpos : (0 : Int) < (R : Int) := by exact_mod_cast Nat.pos_of_ne_zero hR
  have hnn0 : 0 ≤ remaining * 1000 / (T * 1000) :=
    Int.ediv_nonneg (by omega) (by omega)
  simp only [mainPhase, if_pos hr, if_neg (show ¬ (T * 1000 = 0) by omega)]
  rw [if_pos hn0]
  by_cases hk : (remaining * 1000 / (T * 1000)).toNat = 0
  · have h0 : remaining * 1000 / (T * 1000) = 0 := by omega
    rw [hk]
    simp only [List.range_zero, List.map_nil, measurePhase_nil]
    rw [h0, add_zero, Int.mul_ediv_cancel_left _ hRz]
  · rw [range_map_const, measurePhase_replicate 1 T (by omega) _ hk, Int.ediv_one,
      min_self, max_self]
    have hcast : ((remaining * 1000 / (T * 1000)).toNat : Int)
        = remaining * 1000 / (T * 1000) := Int.toNat_of_nonneg hnn0
    rw [hcast]
    have hfac : (R : Int) * T + remaining * 1000 / (T * 1000) * T
        = ((R : Int) + remaining * 1000 / (T * 1000)) * T := by ring
    rw [hfac, Int.mul_ediv_cancel_left _
      (show (R : Int) + remaining * 1000 / (T * 1000) ≠ 0 by omega)]

/-- On a constant-cost trace — every rough sample measures `T` ns and every
batched sample measures its batch size times `T` — the engine reports
minimum = average = maximum = `T * 1000` ps, on every control-flow path. -/
theorem runTestee_const (R : Nat) (hR : R ≠ 0) (T : Int) (hT : 2 ≤ T)
    (hT2 : T * 1000 ≤ INT64_MAX) (remaining : Int) :
    runTestee R (fun _ => T) (fun _ => minDesiredTime_ps / (T * 1000) * T)
      (fun _ => minDesiredTime_ps / (T * 1000) * T)
      (fun _ => if T * 1000 < minDesiredTime_ps then minDesiredTime_ps / (T * 1000) * T
        else T)
      remaining = some ⟨T * 1000, T * 1000, T * 1000⟩ := by
  have hT1 : ¬ (T ≤ 1) := by omega
  have hRz : (R : Int) ≠ 0 := by exact_mod_cast hR
  have hst0 : roughState R (fun _ => T) = ⟨(R : Int) * T, T * 1000, T * 1000⟩ := by
    rw [roughState, range_map_const, measurePhase_replicate 1 T hT1 R hR, Int.ediv_one,
      zero_add, min_eq_right hT2, max_eq_right (by omega : (0 : Int) ≤ T * 1000)]
  have havg0 : roughAverage R (fun _ => T) = T * 1000 := by
    rw [roughAverage, hst0]
    dsimp only
    rw [Int.mul_ediv_cancel_left _ hRz]
  simp only [runTestee, havg0, hst0]
  by_cases hb : T * 1000 < minDesiredTime_ps
  · have h1000 : (1000 : Int) ≤ T * 1000 := by omega
    have hn1eq : batchN (T * 1000) = minDesiredTime_ps / (T * 1000) := batchN_eq _ h1000
    have hn1pos : 0 < batchN (T * 1000) := batchN_pos _ h1000 (le_of_lt hb)
    have hclar : (fun _ : Nat => minDesiredTime_ps / (T * 1000) * T)
        = (fun _ : Nat => batchN (T * 1000) * T) := by
      funext i
      rw [hn1eq]
    have hmain : (fun _ : Nat => if T * 1000 < minDesiredTime_ps then
          minDesiredTime_ps / (T * 1000) * T else T)
        = (fun _ : Nat => batchN (T * 1000) * T) := by
      funext i
      rw [if_pos hb, hn1eq]
    rw [if_pos hb, if_neg (show ¬ (T * 1000 = 0) by omega), hclar, hmain]
    rw [if_neg (show ¬ batchN (T * 1000) = 0 by omega)]
    simp only [range_map_const]
    rw [clarifyPass_const _ T hn1pos hT hT2]
    dsimp only
    rw [if_neg (show ¬ (T * 1000 = 0) by omega)]
    rw [if_neg (show ¬ batchN (T * 1000) = 0 by omega)]
    rw [clarifyPass_const _ T hn1pos hT hT2]
    dsimp only
    by_cases hr : 0 < remaining
    · rw [mainPhase_const_batch R remaining hr T hT _ _ hn1pos]
      rfl
    · rw [mainPhase_nonpos R remaining _ _ _ _ (by omega)
        (fun h => absurd h (by omega))]
      rfl
  · have hmain : (fun _ : Nat => if T * 1000 < minDesiredTime_ps then
          minDesiredTime_ps / (T * 1000) * T else T) = (fun _ : Nat => T) := by
      funext i
      rw [if_neg hb]
    rw [if_neg hb, hmain]
    by_cases hr : 0 < remaining
    · by_cases hgt : minDesiredTime_ps < T * 1000
      · have hn0 : batchN (T * 1000) = 0 := by
          unfold batchN
          rw [Int.ediv_eq_zero_of_lt (by norm_num [minDesiredTime_ps]) hgt]
          decide
        rw [mainPhase_const_ungrouped R hR remaining hr T hT hn0]
        rfl
      · have heq : T * 1000 = minDesiredTime_ps := le_antisymm (not_lt.mp hgt) (not_lt.mp hb)
        have hn1 : batchN (T * 1000) = 1 := by
          rw [heq]
          decide
        have hstream : (fun _ : Nat => T) = (fun _ : Nat => batchN (T * 1000) * T) := by
          funext i
          rw [hn1, one_mul]
        rw [hstream, mainPhase_const_batch R remaining hr T hT _ _ (by omega)]
        rfl
    · rw [mainPhase_nonpos R remaining _ _ _ _ (by omega) ?_]
      · rfl
      · intro _
        dsimp only
        rw [Int.mul_ediv_cancel_left _ hRz]

/-! Claim theorems. -/

/-- C1, counterexample: with `minimumRepetitions = 10`, a trace whose rough
phase has exactly one valid (surviving) sample of 2 s and nine discarded
samples, and whose budget is already exhausted at the main phase
(`remainingTime_ns = -1`), ends with `minimum_ps = 2·10^12 > average_ps =
2·10^11`, because line 191 divides the surviving sum by the full repetition
count.  This refutes the claimed invariant `minimum_ps ≤ average_ps`. -/
theorem C1_counterexample :
    runTestee 10 (fun i => if i = 0 then 2000000000 else 0) (fun _ => 0) (fun _ => 0)
        (fun _ => 0) (-1) =
      some ⟨2000000000000, 200000000000, 2000000000000⟩ ∧
    ¬ ((2000000000000 : Int) ≤ 200000000000) := by
  exact ⟨by decide, by decide⟩

/-- C1 (amended): for a testee whose callable has constant real cost `T` ns
(`T ≥ 2`, i.e. above clock granularity, and within the `int64` picosecond
domain) — so that every ungrouped sample measures `T` and every batched sample
measures its batch size times `T` — the statistics recorded by `run` satisfy
`minimum_ps ≤ average_ps ≤ maximum_ps` (indeed all three equal `1000·T`), for
any `minimumRepetitions ≥ 10` and any remaining main-phase budget.  With
discarded samples present the invariant can fail (see the counterexample),
because the average divides by the full repetition count. -/
theorem C1_constant_cost_stats (R : Nat) (hR : 10 ≤ R) (T : Int) (hT : 2 ≤ T)
    (hT2 : T * 1000 ≤ INT64_MAX) (remaining : Int) (s : TesteeStats)
    (h : runTestee R (fun _ => T) (fun _ => minDesiredTime_ps / (T * 1000) * T)
      (fun _ => minDesiredTime_ps / (T * 1000) * T)
      (fun _ => if T * 1000 < minDesiredTime_ps then minDesiredTime_ps / (T * 1000) * T
        else T) remaining = some s) :
    s.minimum_ps ≤ s.average_ps ∧ s.average_ps ≤ s.maximum_ps := by
  rw [runTestee_const R (by omega) T hT hT2 remaining] at h
  obtain rfl := (Option.some.inj h).symm
  exact ⟨le_refl _, le_refl _⟩

/-- C1, witness: the amended theorem applied at `R = 10`, `T = 2` ns,
exhausted budget. -/
theorem C1_witness :
    (⟨2000, 2000, 2000⟩ : TesteeStats).minimum_ps ≤
      (⟨2000, 2000, 2000⟩ : TesteeStats).average_ps ∧
    (⟨2000, 2000, 2000⟩ : TesteeStats).average_ps ≤
      (⟨2000, 2000, 2000⟩ : TesteeStats).maximum_ps :=
  C1_constant_cost_stats 10 (by decide) 2 (by decide) (by decide) (-1)
    ⟨2000, 2000, 2000⟩ (runTestee_const 10 (by decide) 2 (by decide) (by decide) (-1))

/-- C2, counterexample: when every rough sample is discarded (all deltas 0),
the rough average is 0 and line 203 divides `minDesiredTime_ps` by zero —
undefined behaviour, modelled as `none` — even though `minimumRepetitions =
10` and the budget is positive.  The divisor of the batching decision is
therefore not always nonzero. -/
theorem C2_counterexample :
    roughAverage 10 (fun _ => 0) = 0 ∧
    runTestee 10 (fun _ => 0) (fun _ => 0) (fun _ => 0) (fun _ => 0) 1 = none := by
  exact ⟨by decide, by decide⟩

/-- C2 (amended): the rough average is positive exactly when the sum of the
surviving rough deltas is at least `minimumRepetitions` (in particular it is
zero, and the batching decision divides by zero, when every sample is
discarded); whenever the rough average is positive and below the 5 ms
threshold, the computed batch size equals `minDesiredTime_ps / roughAverage`
exactly (the `uint32_t` conversion does not truncate) and is positive. -/
theorem C2_rough_batch (R : Nat) (hR : 0 < R) (rough : Nat → Int) :
    (0 < roughAverage R rough ↔ (R : Int) ≤ (roughState R rough).sum_ns) ∧
    (0 < roughAverage R rough → roughAverage R rough < minDesiredTime_ps →
      batchN (roughAverage R rough) = minDesiredTime_ps / roughAverage R rough ∧
      0 < batchN (roughAverage R rough)) := by
  have hRz : (0 : Int) < (R : Int) := by exact_mod_cast hR
  simp only [roughAverage]
  set q := (roughState R rough).sum_ns / (R : Int) with hqdef
  have hq : 1 ≤ q ↔ (R : Int) ≤ (roughState R rough).sum_ns := by
    rw [hqdef, Int.le_ediv_iff_mul_le hRz, one_mul]
  constructor
  · rw [← hq]
    omega
  · intro h hlt
    have h1000 : (1000 : Int) ≤ q * 1000 := by omega
    exact ⟨batchN_eq _ h1000, batchN_pos _ h1000 (le_of_lt hlt)⟩

/-- C2, witness: with `R = 10` and constant 5 ns deltas the surviving sum is
50 ≥ 10, the rough average is positive, and the batch size is the exact
quotient. -/
theorem C2_witness :
    0 < roughAverage 10 (fun _ => 5) ∧
    batchN (roughAverage 10 (fun _ => 5)) =
      minDesiredTime_ps / roughAverage 10 (fun _ => 5) := by
  have h := C2_rough_batch 10 (by decide) (fun _ => 5)
  have hpos : 0 < roughAverage 10 (fun _ => 5) := h.1.mpr (by decide)
  exact ⟨hpos, (h.2 hpos (by decide)).1⟩

/-- C4: in the rough phase every sample with `diff_ns ≤ 1` is excluded from
the running sum, minimum and maximum, every surviving sample is included, and
the rough average is the surviving sum divided by the full repetition count
`minimumRepetitions` (not by the number of survivors), times 1000 to convert
ns to ps. -/
theorem C4_rough_phase (R : Nat) (rough : Nat → Int) :
    (roughState R rough).sum_ns = (survivors ((List.range R).map rough)).sum ∧
    (roughState R rough).minimum_ps =
      ((survivors ((List.range R).map rough)).map (fun d => d * 1000)).foldl min INT64_MAX ∧
    (roughState R rough).maximum_ps =
      ((survivors ((List.range R).map rough)).map (fun d => d * 1000)).foldl max 0 ∧
    roughAverage R rough =
      (survivors ((List.range R).map rough)).sum / (R : Int) * 1000 := by
  refine ⟨?_, ?_, ?_, ?_⟩
  · rw [roughState, measurePhase_spec]
    simp
  · rw [roughState, measurePhase_spec, List.foldl_map]
    simp [Int.ediv_one]
  · rw [roughState, measurePhase_spec, List.foldl_map]
    simp [Int.ediv_one]
  · rw [roughAverage, roughState, measurePhase_spec]
    simp

/-- C5: if the remaining budget is non-positive, no main-phase sample is taken
and the statistics of the preceding phase are kept; otherwise, with a positive
refined average, the number of executed repetitions is
`floor(remaining_ps / average)` when the recomputed batch size `N` is 0, and
`floor(floor(remaining_ps / average) / N)` batches when `N > 0`, each batch's
elapsed time being divided by `N` for the per-call minimum/maximum figures. -/
theorem C5_main_phase (R : Nat) (remaining : Int) (main : Nat → Int) (st : MState)
    (avgIn nIn : Int) (h0 : nIn = 0 → avgIn = st.sum_ns / (R : Int) * 1000) :
    (remaining ≤ 0 →
      mainPhase R remaining main st avgIn nIn =
        some (⟨st.minimum_ps, avgIn, st.maximum_ps⟩, 0)) ∧
    (0 < remaining → 0 < avgIn → batchN avgIn = 0 →
      (mainPhase R remaining main st avgIn nIn).map Prod.snd =
        some (remaining * 1000 / avgIn)) ∧
    (0 < remaining → 0 < avgIn → 0 < batchN avgIn →
      (mainPhase R remaining main st avgIn nIn).map Prod.snd =
        some (remaining * 1000 / avgIn / batchN avgIn) ∧
      (0 < remaining * 1000 / avgIn / batchN avgIn →
        (mainPhase R remaining main st avgIn nIn).map
            (fun p => (p.1.minimum_ps, p.1.maximum_ps)) =
          some
            ((survivors ((List.range (remaining * 1000 / avgIn / batchN avgIn).toNat).map
                  main)).foldl (fun m d => min m (d * 1000 / batchN avgIn)) st.minimum_ps,
              (survivors ((List.range (remaining * 1000 / avgIn / batchN avgIn).toNat).map
                  main)).foldl (fun m d => max m (d * 1000 / batchN avgIn))
                st.maximum_ps))) := by
  refine ⟨fun hr => mainPhase_nonpos R remaining main st avgIn nIn hr h0, ?_, ?_⟩
  · intro hr havg hn0
    simp only [mainPhase, if_pos hr, if_neg (ne_of_gt havg)]
    rw [if_pos hn0]
    rfl
  · intro hr havg hnpos
    have hne : ¬ batchN avgIn = 0 := by omega
    constructor
    · simp only [mainPhase, if_pos hr, if_neg (ne_of_gt havg)]
      rw [if_neg hne]
      by_cases hq : 0 < remaining * 1000 / avgIn / batchN avgIn
      · rw [if_pos hq]
        rfl
      · rw [if_neg hq]
        have hnn : 0 ≤ remaining * 1000 / avgIn / batchN avgIn :=
          Int.ediv_nonneg (Int.ediv_nonneg (by omega) (by omega)) (by omega)
        have h00 : remaining * 1000 / avgIn / batchN avgIn = 0 := by omega
        rw [h00]
        rfl
    · intro hq
      simp only [mainPhase, if_pos hr, if_neg (ne_of_gt havg)]
      rw [if_neg hne, if_pos hq, measurePhase_spec]
      rfl

/-- C5, witness: the theorem's skip clause at a concrete exhausted budget. -/
theorem C5_witness :
    mainPhase 10 (-5) (fun _ => 0) ⟨100, 7, 9⟩ 10000 0 = some (⟨7, 10000, 9⟩, 0) :=
  (C5_main_phase 10 (-5) (fun _ => 0) ⟨100, 7, 9⟩ 10000 0 (fun _ => by decide)).1
    (by decide)

/-- C6: for every counter value and every positive frequency, the split
conversion `(tsc / Hz) * 10^9 + ((tsc % Hz) * 10^9) / Hz` of
`getSteadyTick_ns` equals the unsplit `tsc * 10^9 / Hz` in exact integer
arithmetic: the quotient-plus-remainder split loses no precision. -/
theorem C6_tick_split (tsc Hz : Nat) (h : 0 < Hz) :
    getSteadyTick_ns tsc Hz = tsc * 1000000000 / Hz := by
  unfold getSteadyTick_ns
  conv_rhs => rw [← Nat.div_add_mod tsc Hz]
  rw [add_mul, mul_assoc, Nat.mul_add_div h]

/-- C6, witness: the split identity at `tsc = 1234567`, `Hz = 3`. -/
theorem C6_witness : getSteadyTick_ns 1234567 3 = 1234567 * 1000000000 / 3 :=
  C6_tick_split 1234567 3 (by decide)

/-- C7, counterexample: the report computes the percentage in tenths of a
percent with integer division (`0.1 * ((testee * 1000) / max(base, 1))`), so
for `testee = 1`, `base = 3` it prints 33.3, which is not equal to
`100 * 1 / 3 = 33.33…`: the claimed exact equality with
`100 * metric / max(baseline, 1)` fails. -/
theorem C7_counterexample :
    percTenths 1 3 = 333 ∧
    ¬ ((percTenths 1 3 : ℚ) / 10 = 100 * 1 / max 3 1) := by
  refine ⟨by decide, ?_⟩
  have h : percTenths 1 3 = 333 := by decide
  rw [h, max_eq_left (by norm_num : (1 : ℚ) ≤ 3)]
  norm_num

/-- C7 (amended): the reported value is `100 * metric / max(baseline, 1)`
rounded down to the next multiple of 0.1 — the code computes
`(metric * 1000) / max(baseline, 1)` tenths of a percent with the divisor
saturated at 1 ps, so it is defined even for baseline 0 — and on the concrete
cases of the claim (baseline 100 ns; testees 100 ns and 200 ns) it is exactly
100.0 and 200.0. -/
theorem C7_percentage (m b : Int) :
    percTenths m b * max b 1 ≤ m * 1000 ∧
    m * 1000 < (percTenths m b + 1) * max b 1 ∧
    percTenths 100000 100000 = 1000 ∧
    percTenths 200000 100000 = 2000 := by
  have hb : (0 : Int) < max b 1 := lt_of_lt_of_le one_pos (le_max_right b 1)
  refine ⟨?_, ?_, by decide, by decide⟩
  · simp only [percTenths]
    exact Int.ediv_mul_le _ (ne_of_gt hb)
  · simp only [percTenths]
    exact Int.lt_ediv_add_one_mul_self _ hb

/-- C9: a testee slot with no callable bound is skipped by `continue` before
any measurement: the column's minimum/maximum/average baselines and its
formatted-width fields are all unchanged. -/
theorem C9_skip_unbound (R : Nat) (c : ColumnMeta) : processSlot R c none = c := rfl

/-- C3: the formatter returns the plain decimal with suffix `ps` for every
input in [0, 999] ps, and the four concrete cases of the claim hold. -/
theorem C3_formatter_cases (d : Int) (_h0 : 0 ≤ d) (h1 : d ≤ 999) :
    makeDurationString d = Int.repr d ++ "ps" ∧
    makeDurationString 500 = "500ps" ∧
    makeDurationString 1500 = "1ns 500ps" ∧
    makeDurationString 1500000 = "1us 500ns" ∧
    makeDurationString 61000000000000 = "1m 01s" := by
  refine ⟨?_, by decide, by decide, by decide, by decide⟩
  simp only [makeDurationString]
  rw [if_pos h1]

/-- C3, witness: the picosecond tier at `d = 0`. -/
theorem C3_witness : makeDurationString 0 = Int.repr 0 ++ "ps" :=
  (C3_formatter_cases 0 (by decide) (by decide)).1

theorem intRepr_len_le_three (d : Int) (h0 : 0 ≤ d) (h : d ≤ 999) :
    1 ≤ (Int.repr d).length ∧ (Int.repr d).length ≤ 3 := by
  rw [intRepr_nonneg d h0]
  have hb := natRepr_len d.toNat (by omega)
  exact ⟨hb.1, hb.2.1⟩

theorem intRepr_len_le_two (d : Int) (h0 : 0 ≤ d) (h : d ≤ 99) :
    1 ≤ (Int.repr d).length ∧ (Int.repr d).length ≤ 2 := by
  rw [intRepr_nonneg d h0]
  have hb := natRepr_len d.toNat (by omega)
  exact ⟨hb.1, hb.2.2 (by omega)⟩

theorem toString_pad3 (r : Int) (h0 : 0 ≤ r) (h : r ≤ 999) :
    (Benchmark.toString r 3).length = 3 := by
  rw [toString_length]
  have hb := natRepr_len r.toNat (by omega)
  omega

theorem toString_pad2 (r : Int) (h0 : 0 ≤ r) (h : r ≤ 59) :
    (Benchmark.toString r 2).length = 2 := by
  rw [toString_length]
  have hb := natRepr_len r.toNat (by omega)
  have h2 := hb.2.2 (by omega)
  omega

/-- C8: the duration formatter is a total function of its integer input (a
Lean function, hence deterministic: equal inputs give equal outputs), and for
every input in the documented domain [0, `INT64_MAX` ps ≈ 106 days] the output
length lies in [3, 11] characters. -/
theorem C8_formatter_total (d : Int) (h0 : 0 ≤ d) (h1 : d ≤ INT64_MAX) :
    3 ≤ (makeDurationString d).length ∧ (makeDurationString d).length ≤ 11 := by
  have h1n : d ≤ 9223372036854775807 := h1
  have hns0 : 0 ≤ d / 1000 := Int.ediv_nonneg h0 (by norm_num)
  have hL2 : ("ps").length = 2 := rfl
  have hL3 : ("ns ").length = 3 := rfl
  simp only [makeDurationString]
  split_ifs with h2 h3 h4 h5 h6 h7 h8
  · -- picoseconds
    rw [String.length_append]
    have hb := intRepr_len_le_three d h0 h2
    omega
  · -- nanoseconds + padded ps
    simp only [String.length_append]
    have hb := intRepr_len_le_three (d / 1000) hns0 h3
    have hr0 : 0 ≤ d % 1000 := Int.emod_nonneg d (by norm_num)
    have hru : d % 1000 ≤ 999 := by
      have := Int.emod_lt_of_pos d (show (0 : Int) < 1000 by norm_num)
      omega
    have hp := toString_pad3 _ hr0 hru
    have hLns : ("ns ").length = 3 := rfl
    omega
  · -- microseconds + padded ns
    simp only [String.length_append]
    have hqu : d / 1000 / 1000 ≤ 999 := by
      have hstep : d / 1000 / 1000 ≤ 999000 / 1000 :=
        Int.ediv_le_ediv (by norm_num) h4
      have : (999000 : Int) / 1000 = 999 := by decide
      omega
    have hb := intRepr_len_le_three _ (Int.ediv_nonneg hns0 (by norm_num)) hqu
    have hr0 : 0 ≤ d / 1000 % 1000 := Int.emod_nonneg _ (by norm_num)
    have hru : d / 1000 % 1000 ≤ 999 := by
      have := Int.emod_lt_of_pos (d / 1000) (show (0 : Int) < 1000 by norm_num)
      omega
    have hp := toString_pad3 _ hr0 hru
    have hLus : ("us ").length = 3 := rfl
    have hLns2 : ("ns").length = 2 := rfl
    omega
  · -- milliseconds + padded us
    simp only [String.length_append]
    have hus : d / 1000 / 1000 ≤ 999000 := by
      have hstep : d / 1000 / 1000 ≤ 999000000 / 1000 :=
        Int.ediv_le_ediv (by norm_num) h5
      have : (999000000 : Int) / 1000 = 999000 := by decide
      omega
    have hqu : d / 1000 / 1000 / 1000 ≤ 999 := by
      have hstep : d / 1000 / 1000 / 1000 ≤ 999000 / 1000 :=
        Int.ediv_le_ediv (by norm_num) hus
      have : (999000 : Int) / 1000 = 999 := by decide
      omega
    have hq0 : 0 ≤ d / 1000 / 1000 := Int.ediv_nonneg hns0 (by norm_num)
    have hb := intRepr_len_le_three _ (Int.ediv_nonneg hq0 (by norm_num)) hqu
    have hr0 : 0 ≤ d / 1000 / 1000 % 1000 := Int.emod_nonneg _ (by norm_num)
    have hru : d / 1000 / 1000 % 1000 ≤ 999 := by
      have := Int.emod_lt_of_pos (d / 1000 / 1000) (show (0 : Int) < 1000 by norm_num)
      omega
    have hp := toString_pad3 _ hr0 hru
    have hLms : ("ms ").length = 3 := rfl
    have hLus2 : ("us").length = 2 := rfl
    omega
  · -- seconds + padded ms
    simp only [String.length_append]
    have hms : d / 1000 / 1000000 ≤ 59000 := by
      have hstep : d / 1000 / 1000000 ≤ 59000000000 / 1000000 :=
        Int.ediv_le_ediv (by norm_num) h6
      have : (59000000000 : Int) / 1000000 = 59000 := by decide
      omega
    have hq0 : 0 ≤ d / 1000 / 1000000 := Int.ediv_nonneg hns0 (by norm_num)
    have hqu : d / 1000 / 1000000 / 1000 ≤ 999 := by
      have hstep : d / 1000 / 1000000 / 1000 ≤ 59000 / 1000 :=
        Int.ediv_le_ediv (by norm_num) hms
      have : (59000 : Int) / 1000 = 59 := by decide
      omega
    have hb := intRepr_len_le_three _ (Int.ediv_nonneg hq0 (by norm_num)) hqu
    have hr0 : 0 ≤ d / 1000 / 1000000 % 1000 := Int.emod_nonneg _ (by norm_num)
    have hru : d / 1000 / 1000000 % 1000 ≤ 999 := by
      have := Int.emod_lt_of_pos (d / 1000 / 1000000) (show (0 : Int) < 1000 by norm_num)
      omega
    have hp := toString_pad3 _ hr0 hru
    have hLs : ("s ").length = 2 := rfl
    have hLms : ("ms").length = 2 := rfl
    omega
  · -- minutes + padded s
    simp only [String.length_append]
    have hs : d / 1000 / 1000000000 ≤ 3540 := by
      have hstep : d / 1000 / 1000000000 ≤ 3540000000000 / 1000000000 :=
        Int.ediv_le_ediv (by norm_num) h7
      have : (3540000000000 : Int) / 1000000000 = 3540 := by decide
      omega
    have hq0 : 0 ≤ d / 1000 / 1000000000 := Int.ediv_nonneg hns0 (by norm_num)
    have hqu : d / 1000 / 1000000000 / 60 ≤ 59 := by
      have hstep : d / 1000 / 1000000000 / 60 ≤ 3540 / 60 :=
        Int.ediv_le_ediv (by norm_num) hs
      have : (3540 : Int) / 60 = 59 := by decide
      omega
    have hb := intRepr_len_le_two (d / 1000 / 1000000000 / 60)
      (Int.ediv_nonneg hq0 (by norm_num)) (by omega)
    have hr0 : 0 ≤ d / 1000 / 1000000000 % 60 := Int.emod_nonneg _ (by norm_num)
    have hru : d / 1000 / 1000000000 % 60 ≤ 59 := by
      have := Int.emod_lt_of_pos (d / 1000 / 1000000000) (show (0 : Int) < 60 by norm_num)
      omega
    have hp := toString_pad2 _ hr0 hru
    have hLm : ("m ").length = 2 := rfl
    have hLss : ("s").length = 1 := rfl
    omega
  · -- hours + padded m
    simp only [String.length_append]
    have hm : d / 1000 / 60000000000 ≤ 1380 := by
      have hstep : d / 1000 / 60000000000 ≤ 82800000000000 / 60000000000 :=
        Int.ediv_le_ediv (by norm_num) h8
      have : (82800000000000 : Int) / 60000000000 = 1380 := by decide
      omega
    have hq0 : 0 ≤ d / 1000 / 60000000000 := Int.ediv_nonneg hns0 (by norm_num)
    have hqu : d / 1000 / 60000000000 / 60 ≤ 23 := by
      have hstep : d / 1000 / 60000000000 / 60 ≤ 1380 / 60 :=
        Int.ediv_le_ediv (by norm_num) hm
      have : (1380 : Int) / 60 = 23 := by decide
      omega
    have hb := intRepr_len_le_two (d / 1000 / 60000000000 / 60)
      (Int.ediv_nonneg hq0 (by norm_num)) (by omega)
    have hr0 : 0 ≤ d / 1000 / 60000000000 % 60 := Int.emod_nonneg _ (by norm_num)
    have hru : d / 1000 / 60000000000 % 60 ≤ 59 := by
      have := Int.emod_lt_of_pos (d / 1000 / 60000000000) (show (0 : Int) < 60 by norm_num)
      omega
    have hp := toString_pad2 _ hr0 hru
    have hLh : ("h ").length = 2 := rfl
    have hLmm : ("m").length = 1 := rfl
    omega
  · -- days + padded h
    simp only [String.length_append]
    have hnsu : d / 1000 ≤ 9223372036854775 := by
      have hstep : d / 1000 ≤ 9223372036854775807 / 1000 :=
        Int.ediv_le_ediv (by norm_num) h1n
      have : (9223372036854775807 : Int) / 1000 = 9223372036854775 := by decide
      omega
    have hh : d / 1000 / 3600000000000 ≤ 2562 := by
      have hstep : d / 1000 / 3600000000000 ≤ 9223372036854775 / 3600000000000 :=
        Int.ediv_le_ediv (by norm_num) hnsu
      have : (9223372036854775 : Int) / 3600000000000 = 2562 := by decide
      omega
    have hq0 : 0 ≤ d / 1000 / 3600000000000 := Int.ediv_nonneg hns0 (by norm_num)
    have hqu : d / 1000 / 3600000000000 / 24 ≤ 999 := by
      have hstep : d / 1000 / 3600000000000 / 24 ≤ 2562 / 24 :=
        Int.ediv_le_ediv (by norm_num) hh
      have : (2562 : Int) / 24 = 106 := by decide
      omega
    have hb := intRepr_len_le_three _ (Int.ediv_nonneg hq0 (by norm_num)) hqu
    have hr0 : 0 ≤ d / 1000 / 3600000000000 % 24 := Int.emod_nonneg _ (by norm_num)
    have hru : d / 1000 / 3600000000000 % 24 ≤ 59 := by
      have := Int.emod_lt_of_pos (d / 1000 / 3600000000000) (show (0 : Int) < 24 by norm_num)
      omega
    have hp := toString_pad2 _ hr0 hru
    have hLd : ("d ").length = 2 := rfl
    have hLhh : ("h").length = 1 := rfl
    omega

/-- C8, witness: the bounds at `d = 0` (output `0ps`, length 3). -/
theorem C8_witness :
    3 ≤ (makeDurationString 0).length ∧ (makeDurationString 0).length ≤ 11 :=
  C8_formatter_total 0 (by decide) (by decide)

/-! Lemmas about the registry update. -/

theorem resizeSlots_length {α : Type} (v : List (Option α)) (k : Nat) :
    (resizeSlots v k).length = k := by
  simp only [resizeSlots, List.length_append, List.length_take, List.length_replicate]
  omega

theorem addLoop_names {α : Type} (l : List (String × List (Option α))) (cols : Nat)
    (name : String) (column : Nat) (f : α) :
    (addLoop l cols name column f).map Prod.fst =
      if name ∈ l.map Prod.fst then l.map Prod.fst
      else l.map Prod.fst ++ [name] := by
  induction l with
  | nil => simp [addLoop]
  | cons p rest ih =>
    obtain ⟨n, v⟩ := p
    by_cases h : n = name
    · subst h
      simp [addLoop]
    · simp only [addLoop, if_neg h, List.map_cons]
      rw [ih]
      by_cases h2 : name ∈ rest.map Prod.fst
      · rw [if_pos h2, if_pos (by simp [h2])]
      · rw [if_neg h2, if_neg (by simp [h2, Ne.symm h])]
        rfl

theorem addLoop_entry {α : Type} (l : List (String × List (Option α))) (cols : Nat)
    (name : String) (column : Nat) (f : α) (hcol : column < cols)
    (hnd : (l.map Prod.fst).Nodup) :
    ∀ p ∈ addLoop l cols name column f, p.1 = name →
      p.2.length = cols ∧ p.2.get? column = some (some f) := by
  induction l with
  | nil =>
    intro p hp _
    simp only [addLoop, List.mem_singleton] at hp
    subst hp
    refine ⟨by rw [List.length_set, resizeSlots_length], ?_⟩
    exact List.get?_set_eq_of_lt _ (by rw [resizeSlots_length]; exact hcol)
  | cons q rest ih =>
    obtain ⟨n, v⟩ := q
    simp only [List.map_cons, List.nodup_cons] at hnd
    intro p hp hname
    by_cases h : n = name
    · subst h
      simp only [addLoop, if_pos rfl] at hp
      rcases List.mem_cons.mp hp with h1 | h1
      · subst h1
        refine ⟨by rw [List.length_set, resizeSlots_length], ?_⟩
        exact List.get?_set_eq_of_lt _ (by rw [resizeSlots_length]; exact hcol)
      · exfalso
        apply hnd.1
        have hm : p.1 ∈ rest.map Prod.fst := List.mem_map_of_mem Prod.fst h1
        rwa [hname] at hm
    · simp only [addLoop, if_neg h] at hp
      rcases List.mem_cons.mp hp with h1 | h1
      · subst h1
        exact absurd hname h
      · exact ih hnd.2 p h1 hname

/-- C10: when `add` is called with a name that already exists in the registry,
no new entry is created — the list of names (hence every entry's position) is
unchanged — and, when names are unique, the matching entry's slot vector is
resized to the current column count with the callable at the given column
replaced by the new one (last registration wins); moreover `add` preserves
uniqueness of names, so any sequence of `add` calls keeps at most one entry
per distinct name. -/
theorem C10_add_registry {α : Type} (b : BenchState α) (name : String)
    (column : Nat) (f : α) (hcol : column < b.m_columns) :
    (name ∈ b.m_testees.map Prod.fst →
      (add b name column f).m_testees.map Prod.fst = b.m_testees.map Prod.fst) ∧
    ((b.m_testees.map Prod.fst).Nodup →
      ∀ p ∈ (add b name column f).m_testees, p.1 = name →
        p.2.length = b.m_columns ∧ p.2.get? column = some (some f)) ∧
    ((b.m_testees.map Prod.fst).Nodup →
      ((add b name column f).m_testees.map Prod.fst).Nodup) := by
  refine ⟨?_, ?_, ?_⟩
  · intro h
    simp only [add]
    rw [addLoop_names, if_pos h]
  · intro hnd
    simp only [add]
    exact addLoop_entry b.m_testees b.m_columns name column f hcol hnd
  · intro hnd
    simp only [add]
    rw [addLoop_names]
    by_cases h : name ∈ b.m_testees.map Prod.fst
    · rw [if_pos h]
      exact hnd
    · rw [if_neg h]
      rw [← List.concat_eq_append]
      exact List.Nodup.concat h hnd

/-- C10, witness: re-registering the existing name keeps the single entry. -/
theorem C10_witness :
    (add (⟨[("a", [some 1])], 1, 4⟩ : BenchState Nat) "a" 0 2).m_testees.map Prod.fst =
      (⟨[("a", [some 1])], 1, 4⟩ : BenchState Nat).m_testees.map Prod.fst :=
  (C10_add_registry (⟨[("a", [some 1])], 1, 4⟩ : BenchState Nat) "a" 0 2
    (by decide)).1 (by decide)

end Benchmark
